import Mathlib

/-!
Verification of the UNOler card-game engine (src/main.rs).

The Rust source is shallowly embedded below: machine integers (`u64`, `i8`)
become `Nat`/`Int` with explicit `% 2 ^ 64` where wraparound matters,
`Vec<UNOCard>` becomes `List UNOCard`, iterator `position`/`any`/`filter`
calls become structurally identical list functions, and the PRNG rejection
loop (a `while` in the source) takes an explicit fuel argument, returning
`none` on fuel exhaustion.  Definitions mirror the source function by
function and keep its names.
-/

/-- Colors for the cards (enum `Color` in the source; `NA` is the
not-yet-colored state of wild cards). -/
inductive Color where
  | Red
  | Green
  | Yellow
  | Blue
  | NA
deriving DecidableEq, Repr

/-- Special-card kinds (enum `SpecialCard` in the source). -/
inductive SpecialCard where
  | PlusFour
  | ColorChange
  | PlusTwo
  | Skip
  | Reverse
  | Base
deriving DecidableEq, Repr

/-- One full card (struct `UNOCard`): a color, a kind, and an `i8` number
which is `-1` (sentinel) on every non-`Base` card. -/
structure UNOCard where
  color : Color
  special : SpecialCard
  number : Int
deriving DecidableEq, Repr

/-- Constructor `UNOCard::new`. -/
def UNOCard.new (color : Color) (special : SpecialCard) (number : Int) : UNOCard :=
  { color := color, special := special, number := number }

/-- AI difficulty levels (enum `Difficulty`). -/
inductive Difficulty where
  | Calm
  | Aggressive
  | Skilled
deriving DecidableEq, Repr

/-- The u64 modulus. -/
def U64 : Nat := 2 ^ 64

/-- The PRNG state (struct `Randler`): a single 64-bit word. -/
structure Randler where
  seed : Nat
deriving DecidableEq, Repr

/-- `Randler::new(seed)`: stores the given seed verbatim (the source only
prints a warning when the seed is 0; it does not replace it).  The `% U64`
models the `u64` type of the parameter. -/
def Randler.new (seed : Nat) : Randler :=
  { seed := seed % U64 }

/-- The zero-normalization performed by `get_base_random_udev` on the raw
8-byte entropy word read from the OS: a zero word is replaced by 1,
any other word is returned unchanged.  (The OS read itself is I/O; the
word it produced is taken here as the argument.) -/
def get_base_random_udev (random_num : Nat) : Nat :=
  if random_num % U64 = 0 then 1 else random_num % U64

/-- `Randler::urandom_seed_init`, given the raw entropy word the OS read
produced. -/
def Randler.urandom_seed_init (raw : Nat) : Randler :=
  Randler.new (get_base_random_udev raw)

/-- `Randler::rand`: one xorshift64 step
(`x ^= x << 12; x ^= x >> 25; x ^= x << 27`), returning the new value and
the updated state. -/
def Randler.rand (r : Randler) : Nat × Randler :=
  let x := r.seed % U64
  let x := (x ^^^ (x <<< 12)) % U64
  let x := x ^^^ (x >>> 25)
  let x := (x ^^^ (x <<< 27)) % U64
  (x, { seed := x })

/-- The rejection loop of `Randler::rand_range`
(`let mut x = self.rand(); while x >= limit { x = self.rand(); }`),
with explicit fuel; `none` models running out of fuel, which the source
loop would spend spinning. -/
def Randler.rejectionLoop (r : Randler) (limit : Nat) : Nat → Option (Nat × Randler)
  | 0 => none
  | fuel + 1 =>
    let (x, r') := r.rand
    if x ≥ limit then r'.rejectionLoop limit fuel
    else some (x, r')

/-- `Randler::rand_range(min, max)`: rejects `min > max` with `None`;
returns a raw sample on the full-domain boundary; otherwise samples by
modulo-bias rejection.  `none` is also produced on fuel exhaustion of the
rejection loop. -/
def Randler.rand_range (r : Randler) (min max : Nat) (fuel : Nat) : Option (Nat × Randler) :=
  if min > max then none
  else if min = 0 ∧ max = U64 - 1 then some r.rand
  else
    match r.rejectionLoop ((U64 - 1) - ((U64 - 1) % (max - min + 1))) fuel with
    | none => none
    | some (x, r') => some ((x % (max - min + 1)) + min, r')


/-- `build_deck`: the full standard 108-card deck in the source's
construction order: per color, one Base 0 and two each of Base 1..9, then
two Reverse, two Skip, two PlusTwo; finally four ColorChange / PlusFour
pairs with color `NA` (all non-Base cards carry the `-1` sentinel). -/
def build_deck : List UNOCard :=
  let colors := [Color.Red, Color.Green, Color.Yellow, Color.Blue]
  let specials := [SpecialCard.Reverse, SpecialCard.Skip, SpecialCard.PlusTwo]
  (colors.flatMap fun color =>
    ((List.range 10).flatMap fun n =>
      List.replicate (if n = 0 then 1 else 2) (UNOCard.new color SpecialCard.Base (n : Int)))
    ++ (specials.flatMap fun spec =>
      List.replicate 2 (UNOCard.new color spec (-1))))
  ++ (List.range 4).flatMap fun _ =>
    [UNOCard.new Color.NA SpecialCard.ColorChange (-1),
     UNOCard.new Color.NA SpecialCard.PlusFour (-1)]

/-- `Vec::swap(i, j)` on a list: exchanges the elements at positions `i`
and `j` (identity when an index is out of bounds, which the program never
does). -/
def swapList (l : List UNOCard) (i j : Nat) : List UNOCard :=
  if h : i < l.length ∧ j < l.length then
    (l.set i (l.get ⟨j, h.2⟩)).set j (l.get ⟨i, h.1⟩)
  else l

/-- The body of `shuffle`'s loop, iterating the index `i` from `n-1` down
to `1`: swap position `i` with a sampled position in `[0, i]`; a `None`
sample (fuel exhaustion) skips the swap, exactly as the source's
`if let Some(j)` does. -/
def shuffleGo (fuel : Nat) : Nat → List UNOCard → Randler → List UNOCard × Randler
  | 0, deck, r => (deck, r)
  | i + 1, deck, r =>
    match r.rand_range 0 (i + 1) fuel with
    | some (j, r') => shuffleGo fuel i (swapList deck (i + 1) j) r'
    | none => shuffleGo fuel i deck r

/-- `shuffle(deck, rand)`: in-place Fisher–Yates over the whole list. -/
def shuffle (deck : List UNOCard) (r : Randler) (fuel : Nat) : List UNOCard × Randler :=
  shuffleGo fuel (deck.length - 1) deck r

/-- `allowed_move(card_chosen, last_card)`: the move-legality predicate. -/
def allowed_move (card_chosen last_card : UNOCard) : Bool :=
  if card_chosen.special = SpecialCard.ColorChange ∨ card_chosen.special = SpecialCard.PlusFour then
    true
  else if card_chosen.special = last_card.special ∧ card_chosen.special ≠ SpecialCard.Base then
    true
  else if (card_chosen.special = SpecialCard.Base ∧ card_chosen.number = last_card.number)
      ∨ card_chosen.color = last_card.color then
    true
  else
    false

/-- `refresh_deck`: replace the deck with a freshly built, shuffled one. -/
def refresh_deck (r : Randler) (fuel : Nat) : List UNOCard × Randler :=
  shuffle build_deck r fuel

/-- `check_countercards(hand)`: does the hand hold a PlusFour or a
PlusTwo? -/
def check_countercards (hand : List UNOCard) : Bool :=
  hand.any fun u =>
    decide (u.special = SpecialCard.PlusFour) || decide (u.special = SpecialCard.PlusTwo)

/-- The wild-color reset pass at the start of `ensure_deck_full`'s
discard-recycling branch (`discard.iter_mut().for_each(...)`). -/
def resetWilds (discard : List UNOCard) : List UNOCard :=
  discard.map fun c =>
    if c.special = SpecialCard.ColorChange ∨ c.special = SpecialCard.PlusFour then
      { c with color := Color.NA }
    else c

/-- `ensure_deck_full(deck, discard, rand)`: when the deck is empty,
either recycles the discard pile (resetting wild colors, keeping the top
card) or builds a brand-new deck; otherwise a no-op.  Returns the new
`(deck, discard, rand)` triple. -/
def ensure_deck_full (deck discard : List UNOCard) (r : Randler) (fuel : Nat) :
    List UNOCard × List UNOCard × Randler :=
  if deck.isEmpty then
    if discard.length > 1 then
      match (resetWilds discard).getLast? with
      | some top =>
        ((shuffle (deck ++ (resetWilds discard).dropLast) r fuel).1, [top],
         (shuffle (deck ++ (resetWilds discard).dropLast) r fuel).2)
      | none => (deck, discard, r)
    else
      ((refresh_deck r fuel).1, discard, (refresh_deck r fuel).2)
  else
    (deck, discard, r)

/-- `iter().position(p)` on a hand: index of the first element satisfying
`p`. -/
def position (p : UNOCard → Prop) [DecidablePred p] : List UNOCard → Option Nat
  | [] => none
  | c :: rest => if p c then some 0 else (position p rest).map (· + 1)

/-- Early-return plumbing: the value of a block that `return`s the first
`Some` it computes and otherwise falls through. -/
def orE (a b : Option Nat) : Option Nat :=
  match a with
  | some x => some x
  | none => b

/-- `count_color(hand)`: the `(reds, blues, yellows, greens)` counts. -/
def count_color (hand : List UNOCard) : Nat × Nat × Nat × Nat :=
  ((hand.filter fun c => decide (c.color = Color.Red)).length,
   (hand.filter fun c => decide (c.color = Color.Blue)).length,
   (hand.filter fun c => decide (c.color = Color.Yellow)).length,
   (hand.filter fun c => decide (c.color = Color.Green)).length)

/-- The Skilled arm of `get_move_ai` after the vulnerable (`uno`) check:
the color-targeting `if`/`else if` chain over the hand's color counts,
followed by the unconditional legal-Base and wild fallbacks. -/
def skilled_core (hand : List UNOCard) (last_played : UNOCard) : Option Nat :=
  let counts := count_color hand
  let reds := counts.1
  let blues := counts.2.1
  let yellows := counts.2.2.1
  let greens := counts.2.2.2
  let target : Option Nat :=
    if reds > blues ∧ reds > yellows ∧ reds > greens then
      orE (position (fun c => c.color = Color.Red ∧ c.special = SpecialCard.Base ∧
                              allowed_move c last_played = true) hand)
          (position (fun c => c.color = Color.Red ∧ allowed_move c last_played = true) hand)
    else if blues > yellows ∧ blues > greens then
      orE (position (fun c => c.color = Color.Blue ∧ c.special = SpecialCard.Base ∧
                              allowed_move c last_played = true) hand)
          (position (fun c => c.color = Color.Blue ∧ allowed_move c last_played = true) hand)
    else if yellows > greens then
      orE (position (fun c => c.color = Color.Yellow ∧ c.special = SpecialCard.Base ∧
                              allowed_move c last_played = true) hand)
          (position (fun c => c.color = Color.Yellow ∧ allowed_move c last_played = true) hand)
    else if greens > 0 then
      orE (position (fun c => c.color = Color.Green ∧ c.special = SpecialCard.Base ∧
                              allowed_move c last_played = true) hand)
          (position (fun c => c.color = Color.Green ∧ allowed_move c last_played = true) hand)
    else none
  orE target
    (orE (position (fun c => c.special = SpecialCard.Base ∧
                             allowed_move c last_played = true) hand)
         (position (fun c => c.special = SpecialCard.ColorChange ∨
                             c.special = SpecialCard.PlusFour) hand))

/-- `get_move_ai(hand, last_played, difficulty, uno)`: the AI move choice.
The PlusTwo-stacking rule runs first for every difficulty; each arm is
the source's sequence of `position` searches with early return. -/
def get_move_ai (hand : List UNOCard) (last_played : UNOCard) (difficulty : Difficulty)
    (uno : Bool) : Option Nat :=
  orE
    (if last_played.special = SpecialCard.PlusTwo ∧ check_countercards hand = true then
      position (fun c => c.special = SpecialCard.PlusTwo ∨
                         c.special = SpecialCard.PlusFour) hand
     else none)
    (match difficulty with
     | Difficulty.Calm =>
       orE (position (fun c => c.special = SpecialCard.Base ∧
                               allowed_move c last_played = true) hand)
         (orE (position (fun c => c.special ≠ SpecialCard.Base ∧
                                  c.special ≠ SpecialCard.PlusFour ∧
                                  c.special ≠ SpecialCard.ColorChange ∧
                                  allowed_move c last_played = true) hand)
              (position (fun c => c.special = SpecialCard.PlusFour ∨
                                  c.special = SpecialCard.ColorChange) hand))
     | Difficulty.Aggressive =>
       orE (position (fun c => c.special = SpecialCard.PlusFour) hand)
         (orE (position (fun c => (c.special = SpecialCard.PlusTwo ∨
                                   c.special = SpecialCard.Skip ∨
                                   c.special = SpecialCard.Reverse) ∧
                                  allowed_move c last_played = true) hand)
              (position (fun c => (c.special = SpecialCard.ColorChange ∨
                                   c.special = SpecialCard.Base) ∧
                                  allowed_move c last_played = true) hand))
     | Difficulty.Skilled =>
       orE (if uno = true then
              position (fun c => c.special ≠ SpecialCard.Base ∧
                                 allowed_move c last_played = true) hand
            else none)
           (skilled_core hand last_played))

/-- Current game state (struct `Game`): `i8` fields embedded as `Int`. -/
structure Game where
  current_player : Int
  max_players : Int
  direction : Int
deriving DecidableEq, Repr

/-- `Game::new`. -/
def Game.new (c m d : Int) : Game :=
  { current_player := c, max_players := m, direction := d }

/-- `Game::next_turn`: advance by `direction`, wrapped with `rem_euclid`
(embedded as `Int.emod`, which agrees with Rust's `rem_euclid` for a
positive modulus). -/
def Game.next_turn (g : Game) : Game :=
  { g with current_player := (g.current_player + g.direction).emod g.max_players }

/-- `Game::reverse`: flip the direction's sign. -/
def Game.reverse (g : Game) : Game :=
  { g with direction := g.direction * (-1) }

/-- Modelled from the amended C6 wording for the Skilled (non-vulnerable)
strategy: the AI targets Red only when reds strictly exceed every other
color count; otherwise Blue when blues strictly exceed yellows and greens
(so a red-blue tie targets Blue); otherwise Yellow when yellows strictly
exceed greens; otherwise Green when any green is held.  From the targeted
color it prefers a legal Base card, then any legal card; when the target
yields no play, or no branch fires, it falls through to any legal Base
card, then any wild card; otherwise it draws. -/
def skilledMoveSpec (hand : List UNOCard) (top : UNOCard) : Option Nat :=
  let counts := count_color hand
  let targetColor : Option Color :=
    if counts.1 > counts.2.1 ∧ counts.1 > counts.2.2.1 ∧ counts.1 > counts.2.2.2 then
      some Color.Red
    else if counts.2.1 > counts.2.2.1 ∧ counts.2.1 > counts.2.2.2 then
      some Color.Blue
    else if counts.2.2.1 > counts.2.2.2 then
      some Color.Yellow
    else if counts.2.2.2 > 0 then
      some Color.Green
    else none
  let fromTarget : Option Nat :=
    match targetColor with
    | some col =>
      orE (position (fun c => c.color = col ∧ c.special = SpecialCard.Base ∧
                              allowed_move c top = true) hand)
          (position (fun c => c.color = col ∧ allowed_move c top = true) hand)
    | none => none
  orE fromTarget
    (orE (position (fun c => c.special = SpecialCard.Base ∧ allowed_move c top = true) hand)
         (position (fun c => c.special = SpecialCard.ColorChange ∨
                             c.special = SpecialCard.PlusFour) hand))

/-! ### Helper lemmas about `position`, `orE`, swapping, and shuffling -/

/-- The sample produced by one xorshift step is a reduced 64-bit word. -/
theorem Randler.rand_lt (r : Randler) : (Randler.rand r).1 < U64 := by
  unfold Randler.rand
  exact Nat.mod_lt _ (by decide)

theorem position_lt_length {p : UNOCard → Prop} [DecidablePred p] :
    ∀ {l : List UNOCard} {i : Nat}, position p l = some i → i < l.length := by
  intro l
  induction l with
  | nil => intro i h; simp [position] at h
  | cons c rest ih =>
    intro i h
    simp only [position] at h
    split at h
    · cases h; simp
    · cases hr : position p rest with
      | none => rw [hr] at h; simp at h
      | some k =>
        rw [hr] at h
        simp only [Option.map_some'] at h
        cases h
        have := ih hr
        simp
        omega

theorem position_sat {p : UNOCard → Prop} [DecidablePred p] :
    ∀ {l : List UNOCard} {i : Nat}, position p l = some i →
      ∀ c, l[i]? = some c → p c := by
  intro l
  induction l with
  | nil => intro i h; simp [position] at h
  | cons x rest ih =>
    intro i h c hc
    simp only [position] at h
    split at h
    · cases h
      rw [List.getElem?_cons_zero] at hc
      cases hc
      assumption
    · cases hr : position p rest with
      | none => rw [hr] at h; simp at h
      | some k =>
        rw [hr] at h
        simp only [Option.map_some'] at h
        cases h
        rw [List.getElem?_cons_succ] at hc
        exact ih hr c hc

theorem position_first {p : UNOCard → Prop} [DecidablePred p] :
    ∀ {l : List UNOCard} {i : Nat}, position p l = some i →
      ∀ j, j < i → ∀ c, l[j]? = some c → ¬ p c := by
  intro l
  induction l with
  | nil => intro i h; simp [position] at h
  | cons x rest ih =>
    intro i h j hj c hc
    simp only [position] at h
    split at h
    · cases h; omega
    · cases hr : position p rest with
      | none => rw [hr] at h; simp at h
      | some k =>
        rw [hr] at h
        simp only [Option.map_some'] at h
        cases h
        cases j with
        | zero =>
          rw [List.getElem?_cons_zero] at hc
          cases hc
          assumption
        | succ m =>
          rw [List.getElem?_cons_succ] at hc
          exact ih hr m (by omega) c hc

theorem position_isSome_of_mem {p : UNOCard → Prop} [DecidablePred p] :
    ∀ {l : List UNOCard} {c : UNOCard}, c ∈ l → p c → position p l ≠ none := by
  intro l
  induction l with
  | nil => intro c hc; simp at hc
  | cons x rest ih =>
    intro c hc hp
    simp only [position]
    split
    · simp
    · rcases List.mem_cons.mp hc with rfl | hmem
      · contradiction
      · cases hr : position p rest with
        | none => exact absurd hr (ih hmem hp)
        | some k => simp

theorem orE_eq_some {a b : Option Nat} {i : Nat} (h : orE a b = some i) :
    a = some i ∨ (a = none ∧ b = some i) := by
  cases a with
  | some x => left; simpa [orE] using h
  | none => right; exact ⟨rfl, by simpa [orE] using h⟩

theorem orE_none_left (b : Option Nat) : orE none b = b := rfl

theorem orE_some_left (x : Nat) (b : Option Nat) : orE (some x) b = some x := rfl

theorem count_set_add (l : List UNOCard) (i : Nat) (b x : UNOCard) (hi : i < l.length) :
    ((l.set i b).count x + (if l[i] == x then 1 else 0)
      = l.count x + (if b == x then 1 else 0)) := by
  induction l generalizing i with
  | nil => simp at hi
  | cons c t ih =>
    cases i with
    | zero =>
      simp only [List.set_cons_zero, List.getElem_cons_zero, List.count_cons]
      omega
    | succ m =>
      have hm : m < t.length := by simpa using hi
      have := ih m hm
      simp only [List.set_cons_succ, List.getElem_cons_succ, List.count_cons]
      omega

theorem swapList_count (l : List UNOCard) (i j : Nat) (x : UNOCard) :
    (swapList l i j).count x = l.count x := by
  unfold swapList
  split
  · rename_i h
    obtain ⟨hi, hj⟩ := h
    simp only [List.get_eq_getElem]
    have hj' : j < (l.set i l[j]).length := by simpa using hj
    have h1 := count_set_add l i (l[j]) x hi
    have h2 := count_set_add (l.set i (l[j])) j (l[i]) x hj'
    have h3 : (l.set i (l[j]))[j] = l[j] := by
      rw [List.getElem_set]
      split <;> rfl
    rw [h3] at h2
    omega
  · rfl

theorem swapList_perm (l : List UNOCard) (i j : Nat) : (swapList l i j).Perm l :=
  List.perm_iff_count.mpr fun x => swapList_count l i j x

theorem shuffleGo_perm (fuel : Nat) :
    ∀ (k : Nat) (deck : List UNOCard) (r : Randler), ((shuffleGo fuel k deck r).1).Perm deck := by
  intro k
  induction k with
  | zero => intro deck r; exact List.Perm.refl deck
  | succ m ih =>
    intro deck r
    simp only [shuffleGo]
    cases hrr : Randler.rand_range r 0 (m + 1) fuel with
    | none => exact ih deck r
    | some pair =>
      obtain ⟨j, r'⟩ := pair
      exact ((ih (swapList deck (m + 1) j) r').trans (swapList_perm deck (m + 1) j))

theorem shuffle_perm (deck : List UNOCard) (r : Randler) (fuel : Nat) :
    ((shuffle deck r fuel).1).Perm deck :=
  shuffleGo_perm fuel (deck.length - 1) deck r

theorem shuffle_multiset (deck : List UNOCard) (r : Randler) (fuel : Nat) :
    ((shuffle deck r fuel).1 : Multiset UNOCard) = (deck : Multiset UNOCard) :=
  Multiset.coe_eq_coe.mpr (shuffle_perm deck r fuel)

theorem rejectionLoop_bounds :
    ∀ (fuel : Nat) (r : Randler) (limit x : Nat) (r' : Randler),
      Randler.rejectionLoop r limit fuel = some (x, r') → x < limit ∧ x < U64 := by
  intro fuel
  induction fuel with
  | zero => intro r limit x r' h; simp [Randler.rejectionLoop] at h
  | succ m ih =>
    intro r limit x r' h
    simp only [Randler.rejectionLoop] at h
    split at h
    · exact ih _ limit x r' h
    · rename_i hlt
      cases h
      exact ⟨by omega, Randler.rand_lt r⟩

theorem rand_range_bounds {r : Randler} {min max fuel : Nat} {v : Nat} {r' : Randler}
    (h : Randler.rand_range r min max fuel = some (v, r')) : min ≤ v ∧ v ≤ max := by
  unfold Randler.rand_range at h
  split at h
  · simp at h
  · rename_i hle
    split at h
    · rename_i hfull
      have hpair : Randler.rand r = (v, r') := Option.some.inj h
      have hlt := Randler.rand_lt r
      rw [hpair] at hlt
      simp only at hlt
      obtain ⟨h0, hU⟩ := hfull
      subst h0
      subst hU
      exact ⟨Nat.zero_le v, by omega⟩
    · rename_i hfull
      cases hloop : Randler.rejectionLoop r ((U64 - 1) - ((U64 - 1) % (max - min + 1))) fuel with
      | none => rw [hloop] at h; simp at h
      | some pair =>
        obtain ⟨x, r''⟩ := pair
        rw [hloop] at h
        simp only at h
        cases h
        have hrange : 0 < max - min + 1 := by omega
        have hmod : x % (max - min + 1) < max - min + 1 := Nat.mod_lt _ hrange
        omega

/-! ### Claim theorems -/

/-- C1 (counterexample): constructing a generator with seed 0 does NOT
yield a nonzero state word: `Randler::new(0)` stores seed 0 verbatim (the
source only prints a warning), and 0 is a fixed point of the generator. -/
theorem randler_new_zero_counterexample :
    (Randler.new 0).seed = 0 ∧ (Randler.rand (Randler.new 0)).1 = 0 := by
  constructor <;> rfl

/-- C1 (amended): `Randler::new` stores the given seed unchanged — seed 0
included — while only the OS-entropy construction path
(`urandom_seed_init`) normalizes a zero entropy word to 1, so a generator
built from OS entropy always has a nonzero state word. -/
theorem randler_seed_construction :
    (∀ s : Nat, (Randler.new s).seed = s % U64)
    ∧ (∀ raw : Nat, (Randler.urandom_seed_init raw).seed ≠ 0)
    ∧ (Randler.urandom_seed_init 0).seed = 1 := by
  refine ⟨fun s => rfl, fun raw => ?_, rfl⟩
  unfold Randler.urandom_seed_init Randler.new get_base_random_udev
  have hlt : raw % U64 < U64 := Nat.mod_lt _ (by decide)
  by_cases h : raw % U64 = 0
  · rw [if_pos h]
    decide
  · rw [if_neg h, Nat.mod_eq_of_lt hlt]
    exact h

/-- C2: `allowed_move(candidate, top)` is true iff candidate is a wild
(ColorChange/PlusFour), or matches top's non-Base kind, or is a Base with
equal number, or matches top's color; consequently two Base cards are
playable iff same color or same number, and a Base candidate against a
non-Base top is playable only by number or color, never by kind. -/
theorem allowed_move_characterization (candidate top : UNOCard) :
    (allowed_move candidate top = true ↔
      ((candidate.special = SpecialCard.ColorChange ∨ candidate.special = SpecialCard.PlusFour)
       ∨ (candidate.special = top.special ∧ candidate.special ≠ SpecialCard.Base)
       ∨ (candidate.special = SpecialCard.Base ∧ candidate.number = top.number)
       ∨ candidate.color = top.color))
    ∧ (candidate.special = SpecialCard.Base → top.special = SpecialCard.Base →
        (allowed_move candidate top = true ↔
          (candidate.color = top.color ∨ candidate.number = top.number)))
    ∧ (candidate.special = SpecialCard.Base → top.special ≠ SpecialCard.Base →
        (allowed_move candidate top = true ↔
          (candidate.number = top.number ∨ candidate.color = top.color))) := by
  have hmain : allowed_move candidate top = true ↔
      ((candidate.special = SpecialCard.ColorChange ∨ candidate.special = SpecialCard.PlusFour)
       ∨ (candidate.special = top.special ∧ candidate.special ≠ SpecialCard.Base)
       ∨ (candidate.special = SpecialCard.Base ∧ candidate.number = top.number)
       ∨ candidate.color = top.color) := by
    cases hc : candidate.special <;> cases ht : top.special <;>
      simp [allowed_move, hc, ht]
  refine ⟨hmain, fun hc ht => ?_, fun hc ht => ?_⟩
  · rw [hmain]
    simp [hc, ht]
    exact or_comm
  · rw [hmain]
    simp [hc, ht]

/-- C2 (witness): a Base 3 on a Base 3 of another color is playable by the
number rule. -/
theorem allowed_move_characterization_witness :
    allowed_move (UNOCard.new Color.Red SpecialCard.Base 3)
      (UNOCard.new Color.Blue SpecialCard.Base 3) = true :=
  ((allowed_move_characterization _ _).2.1 rfl rfl).mpr (Or.inr rfl)

/-- C3: for `min ≤ max`, every value `rand_range` returns lies in
`[min, max]`; at the boundary `min = 0, max = u64::MAX` it returns the raw
sample unmodified; and away from the boundary the range `max - min + 1`
is a nonzero value that fits in a `u64` (so neither the `max - min + 1`
nor the `u64::MAX - (u64::MAX % range)` computation overflows). -/
theorem rand_range_correct (r : Randler) (min max fuel : Nat) :
    (∀ (v : Nat) (r' : Randler),
        Randler.rand_range r min max fuel = some (v, r') → min ≤ v ∧ v ≤ max)
    ∧ (min = 0 → max = U64 - 1 → Randler.rand_range r min max fuel = some r.rand)
    ∧ (min ≤ max → ¬(min = 0 ∧ max = U64 - 1) → max < U64 →
        1 ≤ max - min + 1 ∧ max - min + 1 ≤ U64 - 1) := by
  refine ⟨fun v r' h => rand_range_bounds h, fun h0 hU => ?_, fun hle hfull hmax => ?_⟩
  · subst h0
    subst hU
    unfold Randler.rand_range
    rw [if_neg (by omega), if_pos ⟨rfl, rfl⟩]
  · by_cases hm : min = 0
    · have hne : ¬(max = U64 - 1) := fun hh => hfull ⟨hm, hh⟩
      omega
    · omega

/-- C3 (witness): from seed 1, `rand_range(3, 10)` returns 4, inside the
requested range. -/
theorem rand_range_correct_witness :
    Randler.rand_range ⟨1⟩ 3 10 5 = some (4, ⟨549890035713⟩) ∧ 3 ≤ 4 ∧ 4 ≤ 10 :=
  ⟨rfl, (rand_range_correct ⟨1⟩ 3 10 5).1 4 ⟨549890035713⟩ rfl⟩

/-- C4: `build_deck` returns exactly 108 cards with the fixed composition:
per color one Base 0, two of each Base 1..9, two Skip, two Reverse, two
PlusTwo; exactly 4 ColorChange and 4 PlusFour, all colored `NA`; every
Base card's number is in 0..9 and every non-Base card carries the `-1`
sentinel. -/
theorem build_deck_composition :
    build_deck.length = 108
    ∧ (∀ c ∈ [Color.Red, Color.Green, Color.Yellow, Color.Blue],
        build_deck.count (UNOCard.new c SpecialCard.Base 0) = 1
        ∧ (∀ n ∈ [(1 : Int), 2, 3, 4, 5, 6, 7, 8, 9],
            build_deck.count (UNOCard.new c SpecialCard.Base n) = 2)
        ∧ build_deck.count (UNOCard.new c SpecialCard.Skip (-1)) = 2
        ∧ build_deck.count (UNOCard.new c SpecialCard.Reverse (-1)) = 2
        ∧ build_deck.count (UNOCard.new c SpecialCard.PlusTwo (-1)) = 2)
    ∧ build_deck.count (UNOCard.new Color.NA SpecialCard.ColorChange (-1)) = 4
    ∧ build_deck.count (UNOCard.new Color.NA SpecialCard.PlusFour (-1)) = 4
    ∧ (build_deck.filter fun c => decide (c.special = SpecialCard.ColorChange)).length = 4
    ∧ (build_deck.filter fun c => decide (c.special = SpecialCard.PlusFour)).length = 4
    ∧ (∀ card ∈ build_deck,
        (card.special = SpecialCard.Base → 0 ≤ card.number ∧ card.number ≤ 9)
        ∧ (card.special ≠ SpecialCard.Base → card.number = -1)) := by
  decide

/-- C4 (witness): there is exactly one Red Base 0 in the built deck. -/
theorem build_deck_composition_witness :
    build_deck.count (UNOCard.new Color.Red SpecialCard.Base 0) = 1 :=
  (build_deck_composition.2.1 Color.Red (by simp)).1

theorem resetWilds_wild_color (l : List UNOCard) :
    ∀ c ∈ resetWilds l,
      (c.special = SpecialCard.ColorChange ∨ c.special = SpecialCard.PlusFour) →
      c.color = Color.NA := by
  intro c hc hw
  unfold resetWilds at hc
  rcases List.mem_map.mp hc with ⟨a, ha, rfl⟩
  by_cases h : a.special = SpecialCard.ColorChange ∨ a.special = SpecialCard.PlusFour
  · rw [if_pos h]
  · rw [if_neg h] at hw
    exact absurd hw h

/-- C5: with an empty draw pile and a discard pile of more than one card,
`ensure_deck_full` leaves exactly the (wild-reset) top discard card as the
sole discard entry, the draw pile becomes a permutation of the remaining
(wild-reset) discard cards, the total card count over the two piles is
preserved, and every wild card moved into the draw pile has color `NA`. -/
theorem ensure_deck_full_recycles (discard : List UNOCard) (r : Randler) (fuel : Nat)
    (h : discard.length > 1) :
    (ensure_deck_full [] discard r fuel).2.1 = (resetWilds discard).getLast?.toList
    ∧ ((ensure_deck_full [] discard r fuel).1 : Multiset UNOCard)
        = ((resetWilds discard).dropLast : Multiset UNOCard)
    ∧ (ensure_deck_full [] discard r fuel).1.length
        + (ensure_deck_full [] discard r fuel).2.1.length = discard.length
    ∧ (∀ c ∈ (ensure_deck_full [] discard r fuel).1,
        (c.special = SpecialCard.ColorChange ∨ c.special = SpecialCard.PlusFour) →
        c.color = Color.NA) := by
  have hlen : (resetWilds discard).length = discard.length := List.length_map _ _
  have hne : resetWilds discard ≠ [] := by
    intro hnil
    rw [hnil] at hlen
    simp at hlen
    omega
  have hlast := List.getLast?_eq_getLast (resetWilds discard) hne
  have hred : ensure_deck_full [] discard r fuel
      = ((shuffle ([] ++ (resetWilds discard).dropLast) r fuel).1,
         [(resetWilds discard).getLast hne],
         (shuffle ([] ++ (resetWilds discard).dropLast) r fuel).2) := by
    unfold ensure_deck_full
    rw [if_pos (by rfl), if_pos h, hlast]
  rw [hred]
  dsimp only
  have hperm := shuffle_perm ([] ++ (resetWilds discard).dropLast) r fuel
  refine ⟨?_, ?_, ?_, ?_⟩
  · rw [hlast]
    rfl
  · rw [shuffle_multiset, List.nil_append]
  · have hl := hperm.length_eq
    simp only [List.nil_append] at hl ⊢
    rw [hl, List.length_dropLast, hlen]
    simp only [List.length_cons, List.length_nil]
    omega
  · intro c hc hw
    have hmem : c ∈ [] ++ (resetWilds discard).dropLast := hperm.mem_iff.mp hc
    rw [List.nil_append] at hmem
    exact resetWilds_wild_color discard c (List.dropLast_subset _ hmem) hw

/-- C5 (witness): recycling a three-card discard pile keeps its top card
(Blue Base 2) as the sole discard entry. -/
theorem ensure_deck_full_recycles_witness :
    (ensure_deck_full []
      [UNOCard.new Color.Red SpecialCard.Base 1,
       UNOCard.new Color.Green SpecialCard.ColorChange (-1),
       UNOCard.new Color.Blue SpecialCard.Base 2] ⟨1⟩ 1).2.1
    = (resetWilds
      [UNOCard.new Color.Red SpecialCard.Base 1,
       UNOCard.new Color.Green SpecialCard.ColorChange (-1),
       UNOCard.new Color.Blue SpecialCard.Base 2]).getLast?.toList :=
  (ensure_deck_full_recycles _ ⟨1⟩ 1 (by decide)).1

/-- C6 (counterexample): with the hand `[Red Base 5, Blue Base 5]` on top
card `Red Base 5`, red and blue are tied for the (joint) maximum color
count and index 0 is a legal red Base card, yet the Skilled AI plays
index 1, a blue card — the red-blue tie is broken toward Blue, not by the
priority Red > Blue, and the tied-count hand does not fall through to the
first legal Base card. -/
theorem skilled_tie_counterexample :
    get_move_ai [UNOCard.new Color.Red SpecialCard.Base 5, UNOCard.new Color.Blue SpecialCard.Base 5]
        (UNOCard.new Color.Red SpecialCard.Base 5) Difficulty.Skilled false = some 1
    ∧ (count_color [UNOCard.new Color.Red SpecialCard.Base 5,
        UNOCard.new Color.Blue SpecialCard.Base 5]).1
      = (count_color [UNOCard.new Color.Red SpecialCard.Base 5,
          UNOCard.new Color.Blue SpecialCard.Base 5]).2.1
    ∧ allowed_move (UNOCard.new Color.Red SpecialCard.Base 5)
        (UNOCard.new Color.Red SpecialCard.Base 5) = true
    ∧ (UNOCard.new Color.Red SpecialCard.Base 5).color = Color.Red
    ∧ (UNOCard.new Color.Blue SpecialCard.Base 5).color = Color.Blue := by
  refine ⟨?_, rfl, rfl, rfl, rfl⟩
  rfl

/-- C6 (amended): away from the PlusTwo-stacking rule, the Skilled
non-vulnerable AI behaves exactly as `skilledMoveSpec` describes: it
targets Red only on a strict majority over all other colors, else Blue
when blues strictly exceed yellows and greens (ties with red going to
Blue), else Yellow when yellows strictly exceed greens, else Green when
any green is held — preferring a legal Base card of the targeted color,
then any legal card of it — and falls through to any legal Base card,
then any wild card, when the target yields nothing or no branch fires. -/
theorem get_move_ai_skilled_spec (hand : List UNOCard) (top : UNOCard)
    (hns : ¬(top.special = SpecialCard.PlusTwo ∧ check_countercards hand = true)) :
    get_move_ai hand top Difficulty.Skilled false = skilledMoveSpec hand top := by
  unfold get_move_ai
  rw [if_neg hns]
  show orE none _ = _
  rw [orE_none_left]
  show orE (if false = true then _ else none) _ = _
  rw [if_neg (by simp)]
  rw [orE_none_left]
  simp only [skilled_core, skilledMoveSpec]
  split_ifs <;> rfl

/-- C6 (witness): on a majority-red hand the Skilled AI matches the
amended description, playing the first legal red Base card. -/
theorem get_move_ai_skilled_spec_witness :
    get_move_ai [UNOCard.new Color.Red SpecialCard.Base 5, UNOCard.new Color.Red SpecialCard.Base 3,
        UNOCard.new Color.Blue SpecialCard.Skip (-1)]
      (UNOCard.new Color.Red SpecialCard.Base 7) Difficulty.Skilled false
    = skilledMoveSpec [UNOCard.new Color.Red SpecialCard.Base 5, UNOCard.new Color.Red SpecialCard.Base 3,
        UNOCard.new Color.Blue SpecialCard.Skip (-1)]
      (UNOCard.new Color.Red SpecialCard.Base 7) :=
  get_move_ai_skilled_spec _ _ (by decide)

/-- C7: whenever the top card is a PlusTwo and the hand holds a counter
card (PlusTwo or PlusFour), `get_move_ai` returns the index of the first
counter card in hand order — for every difficulty and vulnerable flag —
and never elects to draw. -/
theorem get_move_ai_stacking (hand : List UNOCard) (last_played : UNOCard)
    (difficulty : Difficulty) (uno : Bool)
    (htop : last_played.special = SpecialCard.PlusTwo)
    (hcc : check_countercards hand = true) :
    (∀ i, get_move_ai hand last_played difficulty uno = some i →
      i < hand.length
      ∧ (∀ c, hand[i]? = some c →
          (c.special = SpecialCard.PlusTwo ∨ c.special = SpecialCard.PlusFour))
      ∧ (∀ j, j < i → ∀ c, hand[j]? = some c →
          ¬(c.special = SpecialCard.PlusTwo ∨ c.special = SpecialCard.PlusFour)))
    ∧ get_move_ai hand last_played difficulty uno ≠ none := by
  have hex : ∃ u ∈ hand, u.special = SpecialCard.PlusTwo ∨ u.special = SpecialCard.PlusFour := by
    unfold check_countercards at hcc
    rw [List.any_eq_true] at hcc
    obtain ⟨u, hu, hpu⟩ := hcc
    refine ⟨u, hu, ?_⟩
    simp at hpu
    tauto
  obtain ⟨u, hu, hpu⟩ := hex
  have hpos : position (fun c => c.special = SpecialCard.PlusTwo ∨
      c.special = SpecialCard.PlusFour) hand ≠ none :=
    position_isSome_of_mem hu hpu
  have hmove : get_move_ai hand last_played difficulty uno
      = position (fun c => c.special = SpecialCard.PlusTwo ∨
          c.special = SpecialCard.PlusFour) hand := by
    unfold get_move_ai
    rw [if_pos ⟨htop, hcc⟩]
    cases hp : position (fun c => c.special = SpecialCard.PlusTwo ∨
        c.special = SpecialCard.PlusFour) hand with
    | none => exact absurd hp hpos
    | some k => rw [orE_some_left]
  constructor
  · intro i hi
    rw [hmove] at hi
    exact ⟨position_lt_length hi, position_sat hi, position_first hi⟩
  · rw [hmove]
    exact hpos

/-- C7 (witness): on a PlusTwo top, a Calm AI holding a counter at index 1
plays it. -/
theorem get_move_ai_stacking_witness :
    get_move_ai [UNOCard.new Color.Red SpecialCard.Base 5,
        UNOCard.new Color.Green SpecialCard.PlusTwo (-1),
        UNOCard.new Color.Blue SpecialCard.PlusFour (-1)]
      (UNOCard.new Color.Yellow SpecialCard.PlusTwo (-1)) Difficulty.Calm false = some 1
    ∧ 1 < [UNOCard.new Color.Red SpecialCard.Base 5,
        UNOCard.new Color.Green SpecialCard.PlusTwo (-1),
        UNOCard.new Color.Blue SpecialCard.PlusFour (-1)].length :=
  ⟨rfl,
   ((get_move_ai_stacking
      [UNOCard.new Color.Red SpecialCard.Base 5,
       UNOCard.new Color.Green SpecialCard.PlusTwo (-1),
       UNOCard.new Color.Blue SpecialCard.PlusFour (-1)]
      (UNOCard.new Color.Yellow SpecialCard.PlusTwo (-1))
      Difficulty.Calm false rfl rfl).1 1 rfl).1⟩

/-- C8: shuffling preserves the multiset of cards (no cards added,
removed, or duplicated), and every index the range sampler hands to a
swap step at position `i` lies in `[0, i]`. -/
theorem shuffle_preserves_multiset (deck : List UNOCard) (r : Randler) (fuel : Nat) :
    ((shuffle deck r fuel).1 : Multiset UNOCard) = (deck : Multiset UNOCard)
    ∧ (∀ (s s' : Randler) (i fuel2 j : Nat),
        Randler.rand_range s 0 i fuel2 = some (j, s') → j ≤ i) :=
  ⟨shuffle_multiset deck r fuel,
   fun _ _ _ _ _ h => (rand_range_bounds h).2⟩

/-- C8 (witness): a concrete three-card shuffle keeps the same multiset,
and a concrete swap-index sample at `i = 5` lands in `[0, 5]`. -/
theorem shuffle_preserves_multiset_witness :
    (((shuffle [UNOCard.new Color.Red SpecialCard.Base 1,
        UNOCard.new Color.Blue SpecialCard.Base 2,
        UNOCard.new Color.Green SpecialCard.Base 3] ⟨1⟩ 2).1 : Multiset UNOCard)
      = ([UNOCard.new Color.Red SpecialCard.Base 1,
          UNOCard.new Color.Blue SpecialCard.Base 2,
          UNOCard.new Color.Green SpecialCard.Base 3] : Multiset UNOCard))
    ∧ (3 : Nat) ≤ 5 :=
  ⟨(shuffle_preserves_multiset _ ⟨1⟩ 2).1,
   (shuffle_preserves_multiset [] ⟨1⟩ 2).2 ⟨1⟩ ⟨549890035713⟩ 5 1 3 rfl⟩

/-- C9: with `player_count ≥ 1`, `direction ∈ {+1, -1}` and a current
index in `[0, player_count)`, `next_turn` keeps the index in
`[0, player_count)` — wrapping backward from 0 to `player_count - 1` —
and `reverse` only flips the direction's sign, leaving the rest of the
state (and hence the invariant) untouched. -/
theorem next_turn_invariant (c m d : Int)
    (hm : 1 ≤ m) (_hd : d = 1 ∨ d = -1) (_hc : 0 ≤ c ∧ c < m) :
    (0 ≤ ((Game.new c m d).next_turn).current_player
      ∧ ((Game.new c m d).next_turn).current_player < m)
    ∧ ((Game.new c m d).next_turn).max_players = m
    ∧ ((Game.new c m d).next_turn).direction = d
    ∧ ((Game.new 0 m (-1)).next_turn).current_player = m - 1
    ∧ ((Game.new c m d).reverse).direction = -d
    ∧ ((Game.new c m d).reverse).current_player = c
    ∧ ((Game.new c m d).reverse).max_players = m := by
  have hm0 : m ≠ 0 := by omega
  have hmpos : (0 : Int) < m := by omega
  refine ⟨⟨Int.emod_nonneg _ hm0, Int.emod_lt_of_pos _ hmpos⟩, rfl, rfl, ?_, ?_, rfl, rfl⟩
  · show (0 + -1 : Int).emod m = m - 1
    have h0 : (0 + -1 : Int) = (m - 1) + m * (-1) := by ring
    have h1 : ((m - 1) + m * (-1)).emod m = (m - 1).emod m :=
      Int.add_mul_emod_self_left (m - 1) m (-1)
    rw [h0, h1]
    exact Int.emod_eq_of_lt (by omega) (by omega)
  · show d * (-1) = -d
    ring

/-- C9 (witness): from index 2 of 3 players moving forward, the next index
wraps to 0. -/
theorem next_turn_invariant_witness :
    0 ≤ ((Game.new 2 3 1).next_turn).current_player
    ∧ ((Game.new 2 3 1).next_turn).current_player < 3 :=
  (next_turn_invariant 2 3 1 (by decide) (Or.inl rfl) (by decide)).1

theorem orE_position_bound {p q : UNOCard → Prop} [DecidablePred p] [DecidablePred q]
    {hand : List UNOCard} {i : Nat}
    (h : orE (position p hand) (position q hand) = some i) : i < hand.length := by
  rcases orE_eq_some h with h1 | ⟨_, h2⟩
  · exact position_lt_length h1
  · exact position_lt_length h2

theorem skilled_core_bound {hand : List UNOCard} {last_played : UNOCard} {i : Nat}
    (h : skilled_core hand last_played = some i) : i < hand.length := by
  simp only [skilled_core] at h
  rcases orE_eq_some h with h1 | ⟨_, h2⟩
  · split_ifs at h1
    · exact orE_position_bound h1
    · exact orE_position_bound h1
    · exact orE_position_bound h1
    · exact orE_position_bound h1
  · rcases orE_eq_some h2 with h3 | ⟨_, h4⟩
    · exact position_lt_length h3
    · exact position_lt_length h4

/-- C10: every index `get_move_ai` returns is strictly below the hand's
length, so the caller's unchecked indexing and removal at that index stay
in bounds. -/
theorem get_move_ai_index_in_bounds (hand : List UNOCard) (last_played : UNOCard)
    (difficulty : Difficulty) (uno : Bool) :
    ∀ i, get_move_ai hand last_played difficulty uno = some i → i < hand.length := by
  intro i h
  unfold get_move_ai at h
  rcases orE_eq_some h with h1 | ⟨_, h2⟩
  · split_ifs at h1
    exact position_lt_length h1
  · cases difficulty with
    | Calm =>
      simp only at h2
      rcases orE_eq_some h2 with h3 | ⟨_, h4⟩
      · exact position_lt_length h3
      · exact orE_position_bound h4
    | Aggressive =>
      simp only at h2
      rcases orE_eq_some h2 with h3 | ⟨_, h4⟩
      · exact position_lt_length h3
      · exact orE_position_bound h4
    | Skilled =>
      simp only at h2
      rcases orE_eq_some h2 with h3 | ⟨_, h4⟩
      · split_ifs at h3
        exact position_lt_length h3
      · exact skilled_core_bound h4

/-- C10 (witness): a Calm AI on hand of length 2 returns index 1, which is
in bounds. -/
theorem get_move_ai_index_in_bounds_witness :
    get_move_ai [UNOCard.new Color.Blue SpecialCard.Skip (-1),
        UNOCard.new Color.Red SpecialCard.Base 2]
      (UNOCard.new Color.Red SpecialCard.Base 7) Difficulty.Calm false = some 1
    ∧ 1 < [UNOCard.new Color.Blue SpecialCard.Skip (-1),
        UNOCard.new Color.Red SpecialCard.Base 2].length :=
  ⟨rfl,
   get_move_ai_index_in_bounds
     [UNOCard.new Color.Blue SpecialCard.Skip (-1), UNOCard.new Color.Red SpecialCard.Base 2]
     (UNOCard.new Color.Red SpecialCard.Base 7) Difficulty.Calm false 1 rfl⟩
